import Mathlib

/-
Verification of the blockchain-os core against its specification.

The Python source is shallowly embedded:
* Python `dict[str, float]` becomes an association list `List (String × α)`
  (floating-point amounts are modelled as exact rationals);
* methods that mutate `self` and may `raise ValueError` become functions
  returning `Option String × State` (the error message, if any, and the
  state after the call — unchanged on the error paths exactly where the
  Python code raises before mutating);
* SHA-256 composed with canonical JSON serialization is an abstract
  parameter `H : BlockContent → String`; theorems that need "different
  content gives a different hash" take that as an explicit hypothesis
  (collision-freedom on the pair of contents involved).
-/

namespace BOS

/-! ## Association-list model of Python dictionaries -/

/-- Python `d.get(k, dflt)`: value of the first entry with key `k`, or `dflt`. -/
def lookupD {α : Type} (d : List (String × α)) (k : String) (dflt : α) : α :=
  match d with
  | [] => dflt
  | (k0, v) :: rest => if k0 = k then v else lookupD rest k dflt

/-- Python `d.get(k)` returning `None` when absent. -/
def lookupOpt {α : Type} (d : List (String × α)) (k : String) : Option α :=
  match d with
  | [] => none
  | (k0, v) :: rest => if k0 = k then some v else lookupOpt rest k

/-- Python `k in d`. -/
def hasKey {α : Type} (d : List (String × α)) (k : String) : Bool :=
  match d with
  | [] => false
  | (k0, _) :: rest => if k0 = k then true else hasKey rest k

/-- Python `d[k] = v`: replace the value of the first entry with key `k`,
or append a fresh entry when the key is absent. -/
def setKey {α : Type} (d : List (String × α)) (k : String) (v : α) : List (String × α) :=
  match d with
  | [] => [(k, v)]
  | (k0, v0) :: rest => if k0 = k then (k, v) :: rest else (k0, v0) :: setKey rest k v

/-- Python `del d[k]` (removing every entry with the key; a Python dict holds
at most one). -/
def delKey {α : Type} (d : List (String × α)) (k : String) : List (String × α) :=
  match d with
  | [] => []
  | (k0, v0) :: rest => if k0 = k then delKey rest k else (k0, v0) :: delKey rest k

/-! ## `Node` (src/core/node.py)

A participant with per-resource quotas and allocations.  Methods that
`raise ValueError` are embedded as functions returning the error message
(if any) together with the post-call state; in the source every `raise`
happens before any mutation, which the embedding reflects. -/

structure Node where
  node_id : String
  quotas : List (String × ℚ)
  allocated : List (String × ℚ)
  status : String
deriving DecidableEq

/-- The `1e-12` clamp threshold used in `Node.release`. -/
def clampEps : ℚ := 1 / 1000000000000

/-- The `setdefault` loop of `Node.__post_init__`: give every quota key an
`allocated` entry, defaulting to `0`, skipping keys already present. -/
def setDefaultsZero (alloc : List (String × ℚ)) : List String → List (String × ℚ)
  | [] => alloc
  | k :: ks => setDefaultsZero (if hasKey alloc k then alloc else alloc ++ [(k, 0)]) ks

/-- Fresh construction of a `Node` (the dataclass constructor with its default
empty `allocated`, followed by `__post_init__`). -/
def Node.init (node_id : String) (quotas : List (String × ℚ)) : Node :=
  { node_id := node_id, quotas := quotas,
    allocated := setDefaultsZero [] (quotas.map Prod.fst), status := "active" }

/-- `Node.can_allocate` from src/core/node.py. -/
def Node.can_allocate (n : Node) (resource : String) (amount : ℚ) : Bool :=
  if hasKey n.quotas resource = false then false
  else if amount < 0 then false
  else decide (lookupD n.allocated resource 0 + amount ≤ lookupD n.quotas resource 0)

/-- `Node.allocate` from src/core/node.py. -/
def Node.allocate (n : Node) (resource : String) (amount : ℚ) : Option String × Node :=
  if hasKey n.quotas resource = false then
    (some ("Unknown resource: " ++ resource), n)
  else if amount < 0 then
    (some "Amount must be positive", n)
  else if n.can_allocate resource amount = false then
    (some ("Allocation would exceed quota for " ++ resource), n)
  else
    (none, { n with allocated := setKey n.allocated resource (lookupD n.allocated resource 0 + amount) })

/-- `Node.can_release` from src/core/node.py. -/
def Node.can_release (n : Node) (resource : String) (amount : ℚ) : Bool :=
  if hasKey n.allocated resource = false then false
  else if amount < 0 then false
  else decide (lookupD n.allocated resource 0 ≥ amount)

/-- `Node.release` from src/core/node.py: subtract, then clamp a residual
below `1e-12` to exactly `0`. -/
def Node.release (n : Node) (resource : String) (amount : ℚ) : Option String × Node :=
  if hasKey n.allocated resource = false then
    (some ("Unknown resource: " ++ resource), n)
  else if amount < 0 then
    (some "Amount must be positive", n)
  else if n.can_release resource amount = false then
    (some ("Cannot release " ++ resource), n)
  else
    let alloc1 := setKey n.allocated resource (lookupD n.allocated resource 0 - amount)
    if (lookupD alloc1 resource 0 < clampEps) then
      (none, { n with allocated := setKey alloc1 resource 0 })
    else
      (none, { n with allocated := alloc1 })

/-- The §3 data-model invariant of a `Node`: every quota key has
`0 ≤ allocated[r] ≤ quotas[r]`. -/
def NodeInv (n : Node) : Prop :=
  ∀ r, hasKey n.quotas r = true →
    0 ≤ lookupD n.allocated r 0 ∧ lookupD n.allocated r 0 ≤ lookupD n.quotas r 0

/-! ## `ResourceManager` (src/resources/resource_manager.py) -/

structure ResourceManager where
  global_cpu : ℚ
  global_storage : ℚ
  nodes : List (String × Node)

/-- `ResourceManager.can_allocate`: raises on an unknown node, otherwise
delegates to the node's per-quota check. -/
def ResourceManager.can_allocate (rm : ResourceManager) (node_id resource : String)
    (amount : ℚ) : Except String Bool :=
  match lookupOpt rm.nodes node_id with
  | none => Except.error ("Unknown node: " ++ node_id)
  | some node => Except.ok (node.can_allocate resource amount)

/-! ## Blocks and the chain (src/core/blockchain.py)

`Block.transactions` holds the serialized transaction records (the shape of
`Transaction.to_dict`); the abstract hash parameter `H` stands for
`hashlib.sha256(json.dumps(content, sort_keys=True)).hexdigest()`. -/

structure Txn where
  node_id : String
  resource_type : String
  amount : ℚ
  transaction_type : String
  timestamp : ℚ
deriving DecidableEq

structure Block where
  index : ℤ
  timestamp : ℚ
  transactions : List Txn
  previous_hash : String
  nonce : ℤ
  hash : String
deriving DecidableEq

/-- The fields covered by `Blockchain.compute_hash` (everything except the
stored `hash`). -/
structure BlockContent where
  index : ℤ
  timestamp : ℚ
  transactions : List Txn
  previous_hash : String
  nonce : ℤ
deriving DecidableEq

def blockContent (b : Block) : BlockContent :=
  { index := b.index, timestamp := b.timestamp, transactions := b.transactions,
    previous_hash := b.previous_hash, nonce := b.nonce }

/-- `Blockchain.compute_hash`: hash of the canonically serialized content. -/
def compute_hash (H : BlockContent → String) (b : Block) : String :=
  H (blockContent b)

/-- The proof-of-work test `block.hash.startswith("0" * difficulty)`,
modelled as a character-list test. -/
def meetsDifficulty (difficulty : ℕ) (h : String) : Bool :=
  List.isPrefixOf (List.replicate difficulty '0') h.toList

/-- Structured result of `Blockchain.is_chain_valid`; the Python function
returns `(False, message)` where the message reports the failing block index,
modelled here by the index argument of the failure constructors. -/
inductive ChainCheckResult where
  | valid
  | emptyChain
  | invalidHash (i : ℕ)
  | difficultyNotMet (i : ℕ)
  | genesisPrevBad
  | linkBroken (i : ℕ)
deriving DecidableEq

/-- The `for i, block in enumerate(self.chain)` loop of `is_chain_valid`,
threading the previous block's stored hash (`none` before the genesis
block) and the running index. -/
def chainCheckFrom (H : BlockContent → String) (difficulty : ℕ) :
    Option String → ℕ → List Block → ChainCheckResult
  | _, _, [] => ChainCheckResult.valid
  | prevHash, i, b :: rest =>
    if b.hash ≠ compute_hash H b then ChainCheckResult.invalidHash i
    else if meetsDifficulty difficulty b.hash = false then ChainCheckResult.difficultyNotMet i
    else
      match prevHash with
      | none =>
        if b.previous_hash ≠ "0" then ChainCheckResult.genesisPrevBad
        else chainCheckFrom H difficulty (some b.hash) (i + 1) rest
      | some ph =>
        if b.previous_hash ≠ ph then ChainCheckResult.linkBroken i
        else chainCheckFrom H difficulty (some b.hash) (i + 1) rest

/-- `Blockchain.is_chain_valid` from src/core/blockchain.py. -/
def is_chain_valid (H : BlockContent → String) (difficulty : ℕ) (chain : List Block) :
    ChainCheckResult :=
  if chain.isEmpty then ChainCheckResult.emptyChain
  else chainCheckFrom H difficulty none 0 chain

/-- A single block satisfying the §3 block invariants: stored hash equals the
recomputed hash and meets the difficulty. -/
def BlockWF (H : BlockContent → String) (difficulty : ℕ) (b : Block) : Prop :=
  b.hash = compute_hash H b ∧ meetsDifficulty difficulty b.hash = true

/-- The `previous_hash` linkage: `"0"` for the genesis block, the previous
block's stored hash afterwards. -/
def LinksOK : Option String → List Block → Prop
  | _, [] => True
  | none, b :: rest => b.previous_hash = "0" ∧ LinksOK (some b.hash) rest
  | some ph, b :: rest => b.previous_hash = ph ∧ LinksOK (some b.hash) rest

/-- A chain accepted as valid: non-empty, every block well-formed, and the
hash linkage intact. -/
def ChainWF (H : BlockContent → String) (difficulty : ℕ) (chain : List Block) : Prop :=
  chain ≠ [] ∧ (∀ b ∈ chain, BlockWF H difficulty b) ∧ LinksOK none chain

/-! ## Consensus (src/consensus/consensus.py)

Voters are modelled as a tagged variant: `custom` carries a
`vote_on_block` decision function (the `hasattr(node, 'vote_on_block')`
duck-typing), `plain` falls back to the default rule.  For a typed `Block`
the default rule's `hasattr`/`isinstance` checks always pass, leaving the
`index < 0` test. -/

inductive Vote where
  | approve
  | reject
  | abstain
deriving DecidableEq

inductive Voter where
  | plain (node_id : String)
  | custom (node_id : String) (vote_fn : Block → Vote)

def Voter.voterId : Voter → String
  | .plain i => i
  | .custom i _ => i

/-- `ConsensusEngine._simulate_node_vote`. -/
def simulate_node_vote (voter : Voter) (block : Block) : Vote :=
  match voter with
  | .custom _ f => f block
  | .plain _ => if block.index < 0 then Vote.reject else Vote.approve

/-- `ConsensusEngine._calculate_required_votes`: Python's
`int(total_nodes * vote_threshold)` truncates toward zero, which equals the
floor because the product is non-negative. -/
def calculate_required_votes (total_nodes : ℕ) (vote_threshold : ℚ) : ℤ :=
  min (⌊(total_nodes : ℚ) * vote_threshold⌋ + 1) (total_nodes : ℤ)

/-- The voting-details dictionary returned by `request_consensus`: the
pre-validation-failure dictionary has no `voting_record`/`required_votes`
keys, so it is a separate constructor. -/
inductive ConsensusDetails where
  | preValidationFailed (votes_for votes_against abstentions : ℕ) (reason : String)
  | tallied (votes_for votes_against abstentions : ℕ) (required_votes : ℤ)
      (total_nodes : ℕ) (voting_record : List (String × Vote)) (consensus_reached : Bool)

/-- The vote-collection loop of `request_consensus`: counts of approve /
reject / abstain votes together with the per-voter record in roster order. -/
def tallyVotes (block : Block) : List Voter → ℕ × ℕ × ℕ × List (String × Vote)
  | [] => (0, 0, 0, [])
  | v :: rest =>
    let res := tallyVotes block rest
    match simulate_node_vote v block with
    | Vote.approve => (res.1 + 1, res.2.1, res.2.2.1, (v.voterId, Vote.approve) :: res.2.2.2)
    | Vote.reject => (res.1, res.2.1 + 1, res.2.2.1, (v.voterId, Vote.reject) :: res.2.2.2)
    | Vote.abstain => (res.1, res.2.1, res.2.2.1 + 1, (v.voterId, Vote.abstain) :: res.2.2.2)

/-- Steps 2–4 of `request_consensus`: collect votes, compute the required
count, and decide `votes_for >= required_votes`. -/
def tallyAndDecide (nodes : List Voter) (vote_threshold : ℚ) (block : Block) :
    Bool × ConsensusDetails :=
  let t := tallyVotes block nodes
  let required := calculate_required_votes nodes.length vote_threshold
  let reached := decide ((t.1 : ℤ) ≥ required)
  (reached, ConsensusDetails.tallied t.1 t.2.1 t.2.2.1 required nodes.length t.2.2.2 reached)

/-- `ConsensusEngine.request_consensus` (the `block is None` guard is ruled
out by typing).  On pre-validation failure it returns immediately with
`votes_for = 0`, `votes_against = len(self.nodes)`, `abstentions = 0` and no
voting record — the voter loop never runs. -/
def request_consensus (nodes : List Voter) (vote_threshold : ℚ) (block : Block)
    (validator_func : Option (Block → Bool × String)) : Bool × ConsensusDetails :=
  match validator_func with
  | some vf =>
    if (vf block).1 = false then
      (false, ConsensusDetails.preValidationFailed 0 nodes.length 0
        ("Pre-validation failed: " ++ (vf block).2))
    else tallyAndDecide nodes vote_threshold block
  | none => tallyAndDecide nodes vote_threshold block

/-- `validate_block_structure` from src/consensus/consensus.py; the
`hasattr` and `isinstance(transactions, list)` checks always pass for a
typed `Block`. -/
def validate_block_structure (block : Block) : Bool × String :=
  if block.index < 0 then (false, "Block index cannot be negative")
  else if block.hash = "" then (false, "Block hash cannot be empty")
  else (true, "Block structure is valid")

/-! ## Persistence (src/persistence.py)

The JSON file on disk is modelled as `Option (StateFile α β γ)` (`none` when
the file does not exist); `json.dump`/`json.load` round-tripping is the
identity on this model.  `chk` is the abstract
`compute_data_checksum` (SHA-256 of the canonical serialization of the three
collections). -/

structure StateFile (α β γ : Type) where
  nodes : List α
  chain : List β
  audit_events : List γ
  checksum : Option String
deriving DecidableEq

/-- The dictionary returned by `load_state`; `integrity_msg` is absent
(`none`) when the file did not exist. -/
structure LoadResult (α β γ : Type) where
  nodes : List α
  chain : List β
  audit_events : List γ
  checksum : Option String
  integrity_ok : Bool
  integrity_msg : Option String
deriving DecidableEq

/-- `verify_data_integrity`: Python's `if not stored_checksum` treats both a
missing key and an empty string as "no checksum". -/
def verify_data_integrity {α β γ : Type} (chk : List α → List β → List γ → String)
    (d : StateFile α β γ) : Bool × String :=
  match d.checksum with
  | none => (false, "No checksum found - file may have been manually edited")
  | some s =>
    if s = "" then (false, "No checksum found - file may have been manually edited")
    else if s ≠ chk d.nodes d.chain d.audit_events then
      (false, "Checksum mismatch - file has been tampered with! Stored: " ++ s.take 16
        ++ "... Computed: " ++ (chk d.nodes d.chain d.audit_events).take 16 ++ "...")
    else (true, "Integrity verified")

/-- `save_state`: the atomic temp-file-and-rename step always leaves exactly
this payload as the file's content. -/
def save_state {α β γ : Type} (chk : List α → List β → List γ → String)
    (nodes : List α) (chain : List β) (audit_events : List γ) : StateFile α β γ :=
  { nodes := nodes, chain := chain, audit_events := audit_events,
    checksum := some (chk nodes chain audit_events) }

/-- `load_state` from src/persistence.py. -/
def load_state {α β γ : Type} (chk : List α → List β → List γ → String)
    (file : Option (StateFile α β γ)) : LoadResult α β γ :=
  match file with
  | none =>
    { nodes := [], chain := [], audit_events := [], checksum := none,
      integrity_ok := true, integrity_msg := none }
  | some d =>
    let r := verify_data_integrity chk d
    { nodes := d.nodes, chain := d.chain, audit_events := d.audit_events,
      checksum := d.checksum, integrity_ok := r.1, integrity_msg := some r.2 }

/-! ## Node registration with rollback (spec §7) -/

structure LedgerState where
  nodes : List (String × Node)
  chain : List Block
deriving Nonempty

inductive RegisterOutcome where
  | accepted (node_id : String)
  | validationError (msg : String)
  | consensusRejected (msg : String)
deriving DecidableEq

/-- Modelled from the spec: the registration flow of `IntegratedCLI.add_node`
(the `IntegratedCLI` class is imported from `cli.cli` by `controller.py`,
`main.py` and the tests, but its definition is not present under `src/`).
Per spec §7, the node is optimistically registered so a founding "add_node"
block can be proposed; if consensus rejects that block the ledger removes the
just-added node before returning the ConsensusRejected error.  The founding
block construction and the consensus verdict are abstract parameters. -/
def add_node_flow (st : LedgerState) (node_id : String) (quotas : List (String × ℚ))
    (mkFoundingBlock : LedgerState → Block) (consensusApproves : Block → Bool) :
    RegisterOutcome × LedgerState :=
  if hasKey st.nodes node_id then
    (RegisterOutcome.validationError ("Node " ++ node_id ++ " already registered"), st)
  else
    let st1 : LedgerState := { st with nodes := setKey st.nodes node_id (Node.init node_id quotas) }
    let b := mkFoundingBlock st1
    if consensusApproves b then
      (RegisterOutcome.accepted node_id, { st1 with chain := st1.chain ++ [b] })
    else
      (RegisterOutcome.consensusRejected "Consensus rejected the add_node block",
        { st1 with nodes := delKey st1.nodes node_id })

/-! ## Concrete data used by the witness theorems -/

/-- A concrete stand-in for the hash function in the chain witnesses. -/
def hashW : BlockContent → String := fun c => if c.nonce = 0 then "0" else "1"

def blockW0 : Block :=
  { index := 0, timestamp := 0, transactions := [], previous_hash := "0", nonce := 0, hash := "0" }

def blockW1 : Block :=
  { index := 1, timestamp := 0, transactions := [], previous_hash := "0", nonce := 1, hash := "1" }

/-- `blockW0` with one content field (the nonce) mutated, stored hash kept. -/
def blockW0x : Block := { blockW0 with nonce := 5 }

/-! ## Helper lemmas about the dictionary model -/

@[simp] theorem lookupD_setKey_self {α : Type} (d : List (String × α)) (k : String) (v dflt : α) :
    lookupD (setKey d k v) k dflt = v := by
  induction d with
  | nil => simp [setKey, lookupD]
  | cons hd tl ih =>
    obtain ⟨k0, v0⟩ := hd
    by_cases h : k0 = k
    · simp [setKey, lookupD, h]
    · simp [setKey, lookupD, h, ih]

theorem lookupD_setKey_ne {α : Type} (d : List (String × α)) (k k' : String) (v dflt : α)
    (hne : k' ≠ k) : lookupD (setKey d k v) k' dflt = lookupD d k' dflt := by
  induction d with
  | nil => simp [setKey, lookupD, Ne.symm hne]
  | cons hd tl ih =>
    obtain ⟨k0, v0⟩ := hd
    by_cases h : k0 = k
    · subst h
      simp [setKey, lookupD, Ne.symm hne]
    · simp only [setKey, if_neg h, lookupD]
      by_cases h' : k0 = k'
      · simp [h']
      · simp [h', ih]

@[simp] theorem hasKey_setKey_self {α : Type} (d : List (String × α)) (k : String) (v : α) :
    hasKey (setKey d k v) k = true := by
  induction d with
  | nil => simp [setKey, hasKey]
  | cons hd tl ih =>
    obtain ⟨k0, v0⟩ := hd
    by_cases h : k0 = k
    · simp [setKey, hasKey, h]
    · simp [setKey, hasKey, h, ih]

theorem hasKey_setKey_ne {α : Type} (d : List (String × α)) (k k' : String) (v : α)
    (hne : k' ≠ k) : hasKey (setKey d k v) k' = hasKey d k' := by
  induction d with
  | nil => simp [setKey, hasKey, Ne.symm hne]
  | cons hd tl ih =>
    obtain ⟨k0, v0⟩ := hd
    by_cases h : k0 = k
    · subst h
      simp [setKey, hasKey, Ne.symm hne]
    · simp only [setKey, if_neg h, hasKey]
      by_cases h' : k0 = k'
      · simp [h']
      · simp [h', ih]

theorem delKey_of_not_hasKey {α : Type} (d : List (String × α)) (k : String)
    (h : hasKey d k = false) : delKey d k = d := by
  induction d with
  | nil => simp [delKey]
  | cons hd tl ih =>
    obtain ⟨k0, v0⟩ := hd
    by_cases hk : k0 = k
    · simp [hasKey, hk] at h
    · simp only [hasKey, if_neg hk] at h
      simp [delKey, hk, ih h]

theorem delKey_setKey_absent {α : Type} (d : List (String × α)) (k : String) (v : α)
    (h : hasKey d k = false) : delKey (setKey d k v) k = d := by
  induction d with
  | nil => simp [setKey, delKey]
  | cons hd tl ih =>
    obtain ⟨k0, v0⟩ := hd
    by_cases hk : k0 = k
    · simp [hasKey, hk] at h
    · simp only [hasKey, if_neg hk] at h
      simp [setKey, delKey, hk, ih h]

theorem lookupD_append {α : Type} (a b : List (String × α)) (k : String) (dflt : α) :
    lookupD (a ++ b) k dflt = lookupD a k (lookupD b k dflt) := by
  induction a with
  | nil => simp [lookupD]
  | cons hd tl ih =>
    obtain ⟨k0, v0⟩ := hd
    by_cases h : k0 = k
    · simp [lookupD, h]
    · simp [lookupD, h, ih]

/-! ## Helper lemmas about `Node` -/

theorem can_allocate_eq_true {n : Node} {r : String} {a : ℚ} :
    n.can_allocate r a = true ↔
      hasKey n.quotas r = true ∧ 0 ≤ a ∧
        lookupD n.allocated r 0 + a ≤ lookupD n.quotas r 0 := by
  unfold Node.can_allocate
  by_cases h1 : hasKey n.quotas r = false
  · simp [h1]
  · by_cases h2 : a < 0
    · simp [h1, h2]
    · simp [h1, h2, eq_true_of_ne_false h1, not_lt.mp h2]

theorem can_release_eq_true {n : Node} {r : String} {a : ℚ} :
    n.can_release r a = true ↔
      hasKey n.allocated r = true ∧ 0 ≤ a ∧ a ≤ lookupD n.allocated r 0 := by
  unfold Node.can_release
  by_cases h1 : hasKey n.allocated r = false
  · simp [h1]
  · by_cases h2 : a < 0
    · simp [h1, h2]
    · simp [h1, h2, eq_true_of_ne_false h1, not_lt.mp h2, ge_iff_le]

theorem allocate_eq_of_success {n n' : Node} {r : String} {a : ℚ}
    (h : n.allocate r a = (none, n')) :
    n.can_allocate r a = true ∧
      n' = { n with allocated := setKey n.allocated r (lookupD n.allocated r 0 + a) } := by
  by_cases h1 : hasKey n.quotas r = false
  · simp [Node.allocate, h1] at h
  · by_cases h2 : a < 0
    · simp [Node.allocate, h1, h2] at h
    · by_cases h3 : n.can_allocate r a = false
      · simp [Node.allocate, h1, h2, h3] at h
      · refine ⟨eq_true_of_ne_false h3, ?_⟩
        simp [Node.allocate, h1, h2, h3] at h
        exact h.symm

theorem release_eq_of_success {n n' : Node} {r : String} {a : ℚ}
    (h : n.release r a = (none, n')) :
    n.can_release r a = true ∧
      n' = { n with allocated :=
        (if (lookupD n.allocated r 0 - a < clampEps) then
          setKey (setKey n.allocated r (lookupD n.allocated r 0 - a)) r 0
        else setKey n.allocated r (lookupD n.allocated r 0 - a)) } := by
  by_cases h1 : hasKey n.allocated r = false
  · simp [Node.release, h1] at h
  · by_cases h2 : a < 0
    · simp [Node.release, h1, h2] at h
    · by_cases h3 : n.can_release r a = false
      · simp [Node.release, h1, h2, h3] at h
      · refine ⟨eq_true_of_ne_false h3, ?_⟩
        by_cases h4 : lookupD n.allocated r 0 - a < clampEps
        · rw [if_pos h4]
          simp [Node.release, h1, h2, h3, h4] at h
          exact h.symm
        · rw [if_neg h4]
          simp [Node.release, h1, h2, h3, h4] at h
          exact h.symm

theorem setDefaultsZero_lookup (ks : List String) (alloc : List (String × ℚ))
    (h : ∀ r, lookupD alloc r 0 = 0) (r : String) :
    lookupD (setDefaultsZero alloc ks) r 0 = 0 := by
  induction ks generalizing alloc with
  | nil => exact h r
  | cons k ks ih =>
    simp only [setDefaultsZero]
    by_cases hk : hasKey alloc k
    · simp only [if_pos hk]
      exact ih alloc h
    · simp only [if_neg hk]
      refine ih _ (fun r' => ?_)
      rw [lookupD_append]
      have : lookupD [(k, (0 : ℚ))] r' 0 = 0 := by
        by_cases hx : k = r' <;> simp [lookupD, hx]
      rw [this]
      exact h r'

/-! ## Helper lemmas about chain validation -/

theorem block_eq_of {a b : Block} (hc : blockContent a = blockContent b)
    (hh : a.hash = b.hash) : a = b := by
  cases a
  cases b
  simp only [blockContent, BlockContent.mk.injEq] at hc
  simp_all

theorem chainCheckFrom_valid (H : BlockContent → String) (difficulty : ℕ) (bs : List Block) :
    ∀ (ph : Option String) (i : ℕ), (∀ b ∈ bs, BlockWF H difficulty b) → LinksOK ph bs →
      chainCheckFrom H difficulty ph i bs = ChainCheckResult.valid := by
  induction bs with
  | nil =>
    intro ph i _ _
    cases ph <;> simp [chainCheckFrom]
  | cons b rest ih =>
    intro ph i hwf hlk
    obtain ⟨hh, hd⟩ := hwf b (by simp)
    have hrest : ∀ x ∈ rest, BlockWF H difficulty x := fun x hx => hwf x (by simp [hx])
    have h1 : ¬ (b.hash ≠ compute_hash H b) := not_not_intro hh
    have h2 : ¬ (meetsDifficulty difficulty b.hash = false) := by simp [hd]
    cases ph with
    | none =>
      simp only [LinksOK] at hlk
      obtain ⟨hprev, hlk'⟩ := hlk
      have h3 : ¬ (b.previous_hash ≠ "0") := not_not_intro hprev
      simp only [chainCheckFrom, if_neg h1, if_neg h2, if_neg h3]
      exact ih _ _ hrest hlk'
    | some p =>
      simp only [LinksOK] at hlk
      obtain ⟨hprev, hlk'⟩ := hlk
      have h3 : ¬ (b.previous_hash ≠ p) := not_not_intro hprev
      simp only [chainCheckFrom, if_neg h1, if_neg h2, if_neg h3]
      exact ih _ _ hrest hlk'

theorem chainCheckFrom_set (H : BlockContent → String) (difficulty : ℕ) (bs : List Block) :
    ∀ (ph : Option String) (i0 j : ℕ) (hj : j < bs.length) (b' : Block),
      chainCheckFrom H difficulty ph i0 bs = ChainCheckResult.valid →
      b' ≠ bs.get ⟨j, hj⟩ →
      (blockContent b' = blockContent (bs.get ⟨j, hj⟩) ∨ b'.hash = (bs.get ⟨j, hj⟩).hash) →
      (blockContent b' ≠ blockContent (bs.get ⟨j, hj⟩) →
        H (blockContent b') ≠ H (blockContent (bs.get ⟨j, hj⟩))) →
      chainCheckFrom H difficulty ph i0 (bs.set j b') = ChainCheckResult.invalidHash (i0 + j) := by
  induction bs with
  | nil =>
    intro ph i0 j hj
    exact absurd hj (by simp)
  | cons b rest ih =>
    intro ph i0 j hj b' hvalid hne hfield hcoll
    have hh : b.hash = compute_hash H b := by
      by_contra hcon
      simp only [chainCheckFrom, if_pos hcon] at hvalid
      exact ChainCheckResult.noConfusion hvalid
    have h1 : ¬ (b.hash ≠ compute_hash H b) := not_not_intro hh
    have hd2 : meetsDifficulty difficulty b.hash = true := by
      by_contra hcon
      have hfalse : meetsDifficulty difficulty b.hash = false := by simpa using hcon
      simp only [chainCheckFrom, if_neg h1, if_pos hfalse] at hvalid
      exact ChainCheckResult.noConfusion hvalid
    have h2 : ¬ (meetsDifficulty difficulty b.hash = false) := by simp [hd2]
    cases j with
    | zero =>
      have hget : (b :: rest).get ⟨0, hj⟩ = b := rfl
      rw [hget] at hne hfield hcoll
      have hx : b'.hash ≠ compute_hash H b' := by
        rcases hfield with hcf | hhf
        · have hhe : b'.hash ≠ b.hash := fun he => hne (block_eq_of hcf he)
          have hceq : compute_hash H b' = b.hash := by
            show H (blockContent b') = b.hash
            rw [hcf]
            exact hh.symm
          rw [hceq]
          exact hhe
        · have hcne : blockContent b' ≠ blockContent b := fun hce => hne (block_eq_of hce hhf)
          have hHne := hcoll hcne
          intro he
          apply hHne
          rw [compute_hash] at he
          rw [← he, hhf, hh, compute_hash]
      show chainCheckFrom H difficulty ph i0 (b' :: rest) = ChainCheckResult.invalidHash (i0 + 0)
      simp only [chainCheckFrom, if_pos hx, Nat.add_zero]
    | succ k =>
      have hj' : k < rest.length := Nat.lt_of_succ_lt_succ hj
      have hget : (b :: rest).get ⟨k + 1, hj⟩ = rest.get ⟨k, hj'⟩ := rfl
      rw [hget] at hne hfield hcoll
      cases ph with
      | none =>
        have hprev : b.previous_hash = "0" := by
          by_contra hcon
          simp only [chainCheckFrom, if_neg h1, if_neg h2, if_pos hcon] at hvalid
          exact ChainCheckResult.noConfusion hvalid
        have h3 : ¬ (b.previous_hash ≠ "0") := not_not_intro hprev
        have hvtail : chainCheckFrom H difficulty (some b.hash) (i0 + 1) rest =
            ChainCheckResult.valid := by
          simpa only [chainCheckFrom, if_neg h1, if_neg h2, if_neg h3] using hvalid
        have htail := ih (some b.hash) (i0 + 1) k hj' b' hvtail hne hfield hcoll
        show chainCheckFrom H difficulty none i0 (b :: rest.set k b') =
          ChainCheckResult.invalidHash (i0 + (k + 1))
        simp only [chainCheckFrom, if_neg h1, if_neg h2, if_neg h3]
        rw [htail]
        congr 1
        omega
      | some p =>
        have hprev : b.previous_hash = p := by
          by_contra hcon
          simp only [chainCheckFrom, if_neg h1, if_neg h2, if_pos hcon] at hvalid
          exact ChainCheckResult.noConfusion hvalid
        have h3 : ¬ (b.previous_hash ≠ p) := not_not_intro hprev
        have hvtail : chainCheckFrom H difficulty (some b.hash) (i0 + 1) rest =
            ChainCheckResult.valid := by
          simpa only [chainCheckFrom, if_neg h1, if_neg h2, if_neg h3] using hvalid
        have htail := ih (some b.hash) (i0 + 1) k hj' b' hvtail hne hfield hcoll
        show chainCheckFrom H difficulty (some p) i0 (b :: rest.set k b') =
          ChainCheckResult.invalidHash (i0 + (k + 1))
        simp only [chainCheckFrom, if_neg h1, if_neg h2, if_neg h3]
        rw [htail]
        congr 1
        omega

/-! ## Claim C1 -/

/-- C1: every chain satisfying the block and linkage invariants is accepted
by `is_chain_valid`; and replacing any single block `i` of an accepted chain
by a different block that keeps either its hashed content or its stored hash
unchanged (i.e. a mutation of a single field) makes `is_chain_valid` fail
with reported failing index `i` — the first altered block, not a later one.
The hypothesis on `H` is collision-freedom for the pair of contents
involved: a changed content yields a changed recomputed hash. -/
theorem c1_chain_validation_detects_tampering :
    (∀ (H : BlockContent → String) (difficulty : ℕ) (chain : List Block),
      ChainWF H difficulty chain →
        is_chain_valid H difficulty chain = ChainCheckResult.valid) ∧
    (∀ (H : BlockContent → String) (difficulty : ℕ) (chain : List Block)
      (i : ℕ) (hi : i < chain.length) (b' : Block),
      is_chain_valid H difficulty chain = ChainCheckResult.valid →
      b' ≠ chain.get ⟨i, hi⟩ →
      (blockContent b' = blockContent (chain.get ⟨i, hi⟩) ∨
        b'.hash = (chain.get ⟨i, hi⟩).hash) →
      (blockContent b' ≠ blockContent (chain.get ⟨i, hi⟩) →
        H (blockContent b') ≠ H (blockContent (chain.get ⟨i, hi⟩))) →
      is_chain_valid H difficulty (chain.set i b') = ChainCheckResult.invalidHash i) := by
  constructor
  · intro H d chain hwf
    obtain ⟨hne, hbwf, hlk⟩ := hwf
    rw [is_chain_valid, if_neg (by simp [List.isEmpty_iff, hne])]
    exact chainCheckFrom_valid H d chain none 0 hbwf hlk
  · intro H d chain i hi b' hvalid hne hfield hcoll
    have hch : chain ≠ [] := by
      intro hcon
      subst hcon
      simp at hi
    have hset : chain.set i b' ≠ [] := by
      intro hcon
      have := congrArg List.length hcon
      simp at this
      subst this
      simp at hi
    rw [is_chain_valid, if_neg (by simp [List.isEmpty_iff, hch])] at hvalid
    rw [is_chain_valid, if_neg (by simp [List.isEmpty_iff, hset])]
    have := chainCheckFrom_set H d chain none 0 i hi b' hvalid hne hfield hcoll
    simpa using this

/-- Witness for C1: a concrete two-block chain is accepted, and mutating the
nonce of block 0 (stored hash kept) is reported as a failure at index 0. -/
theorem c1_witness :
    is_chain_valid hashW 0 [blockW0, blockW1] = ChainCheckResult.valid ∧
    is_chain_valid hashW 0 ([blockW0, blockW1].set 0 blockW0x) =
      ChainCheckResult.invalidHash 0 := by
  constructor
  · refine c1_chain_validation_detects_tampering.1 hashW 0 [blockW0, blockW1] ⟨?_, ?_, ?_⟩
    · simp
    · intro b hb
      simp only [List.mem_cons, List.not_mem_nil, or_false] at hb
      rcases hb with rfl | rfl
      · exact ⟨rfl, by decide⟩
      · exact ⟨rfl, by decide⟩
    · refine ⟨rfl, rfl, trivial⟩
  · refine c1_chain_validation_detects_tampering.2 hashW 0 [blockW0, blockW1] 0 (by decide)
      blockW0x ?_ ?_ ?_ ?_
    · refine c1_chain_validation_detects_tampering.1 hashW 0 [blockW0, blockW1] ⟨?_, ?_, ?_⟩
      · simp
      · intro b hb
        simp only [List.mem_cons, List.not_mem_nil, or_false] at hb
        rcases hb with rfl | rfl
        · exact ⟨rfl, by decide⟩
        · exact ⟨rfl, by decide⟩
      · refine ⟨rfl, rfl, trivial⟩
    · decide
    · exact Or.inr rfl
    · intro _
      decide

/-! ## Claim C2 -/

theorem floor_nat_mul_half (n : ℕ) : ⌊(n : ℚ) * (1 / 2)⌋ = (n : ℤ) / 2 := by
  rw [mul_one_div]
  have h := Rat.floor_intCast_div_natCast (n : ℤ) 2
  push_cast at h
  exact_mod_cast h

/-- C2: for every roster size `n ≥ 1` and threshold `t ∈ (0, 1]`,
`_calculate_required_votes` returns `min(n, floor(n*t)+1)`, which is at
least 1 and at most `n`; at threshold 0.5 it equals `floor(n/2)+1` (so a
1-node roster needs exactly 1 vote and a 2-node roster exactly 2); and at a
fixed threshold it is monotonically non-decreasing in the roster size. -/
theorem c2_required_votes_formula (n : ℕ) (t : ℚ) (hn : 1 ≤ n) (ht0 : 0 < t)
    (_ht1 : t ≤ 1) :
    calculate_required_votes n t = min (n : ℤ) (⌊(n : ℚ) * t⌋ + 1) ∧
    1 ≤ calculate_required_votes n t ∧
    calculate_required_votes n t ≤ (n : ℤ) ∧
    calculate_required_votes n (1 / 2) = (n : ℤ) / 2 + 1 ∧
    calculate_required_votes 1 (1 / 2) = 1 ∧
    calculate_required_votes 2 (1 / 2) = 2 ∧
    (∀ m : ℕ, n ≤ m → calculate_required_votes n t ≤ calculate_required_votes m t) := by
  have hn' : (1 : ℤ) ≤ (n : ℤ) := by exact_mod_cast hn
  have hprod : (0 : ℚ) ≤ (n : ℚ) * t := mul_nonneg (by positivity) ht0.le
  have hhalf : ∀ m : ℕ, calculate_required_votes m (1 / 2) =
      min (⌊(m : ℚ) * (1 / 2)⌋ + 1) (m : ℤ) := fun _ => rfl
  refine ⟨min_comm _ _, ?_, min_le_right _ _, ?_, ?_, ?_, ?_⟩
  · refine le_min ?_ hn'
    have hfl : (0 : ℤ) ≤ ⌊(n : ℚ) * t⌋ := Int.floor_nonneg.mpr hprod
    omega
  · rw [hhalf, floor_nat_mul_half]
    have : min ((n : ℤ) / 2 + 1) (n : ℤ) = (n : ℤ) / 2 + 1 :=
      min_eq_left (by omega)
    omega
  · rw [hhalf, floor_nat_mul_half]
    decide
  · rw [hhalf, floor_nat_mul_half]
    decide
  · intro m hm
    unfold calculate_required_votes
    have hc : (n : ℚ) ≤ (m : ℚ) := by exact_mod_cast hm
    have hfloor : ⌊(n : ℚ) * t⌋ ≤ ⌊(m : ℚ) * t⌋ :=
      Int.floor_le_floor (mul_le_mul_of_nonneg_right hc ht0.le)
    have hcast : (n : ℤ) ≤ (m : ℤ) := by exact_mod_cast hm
    exact min_le_min (by omega) hcast

/-- Witness for C2 at concrete roster sizes and thresholds. -/
theorem c2_witness :
    1 ≤ calculate_required_votes 2 1 ∧ calculate_required_votes 2 1 ≤ 2 ∧
    calculate_required_votes 2 (1 / 2) = 2 ∧ calculate_required_votes 1 (1 / 2) = 1 := by
  have h := c2_required_votes_formula 2 1 (by decide) (by decide) (by decide)
  exact ⟨h.2.1, h.2.2.1, h.2.2.2.2.2.1, h.2.2.2.2.1⟩

/-! ## Claim C3 -/

/-- C3 counterexample: the claim says a rejected pre-validation yields zero
votes for, zero votes against and zero abstentions; but the code reports
`votes_against = len(self.nodes)`.  With a 1-voter roster the details are
`preValidationFailed 0 1 0 _`, never `preValidationFailed 0 0 0 _`. -/
theorem c3_counterexample :
    ¬ (∀ (nodes : List Voter) (t : ℚ) (b : Block) (vf : Block → Bool × String),
        (vf b).1 = false →
        (request_consensus nodes t b (some vf)).1 = false ∧
        ∃ reason, (request_consensus nodes t b (some vf)).2 =
          ConsensusDetails.preValidationFailed 0 0 0 reason) := by
  intro hclaim
  obtain ⟨-, reason, hr⟩ :=
    hclaim [Voter.plain "n1"] 1 blockW0 (fun _ => (false, "bad")) rfl
  rw [show (request_consensus [Voter.plain "n1"] 1 blockW0
      (some (fun _ => (false, "bad")))).2 =
    ConsensusDetails.preValidationFailed 0 1 0 ("Pre-validation failed: " ++ "bad")
    from rfl] at hr
  simp at hr

/-- C3 (amended): when the supplied pre-validator rejects the block,
`request_consensus` returns not-approved immediately with zero votes for and
zero abstentions, `votes_against` reported as the full roster size, and no
voter polled: the returned details carry no voting record and the result is
the same for any roster of the same size. -/
theorem c3_prevalidation_short_circuit (nodes : List Voter) (t : ℚ) (b : Block)
    (vf : Block → Bool × String) (hreject : (vf b).1 = false) :
    request_consensus nodes t b (some vf) =
      (false, ConsensusDetails.preValidationFailed 0 nodes.length 0
        ("Pre-validation failed: " ++ (vf b).2)) ∧
    (∀ nodes' : List Voter, nodes'.length = nodes.length →
      request_consensus nodes' t b (some vf) = request_consensus nodes t b (some vf)) := by
  constructor
  · simp [request_consensus, hreject]
  · intro nodes' hlen
    simp [request_consensus, hreject, hlen]

/-- Witness for C3 (amended) at a concrete roster, block and validator. -/
theorem c3_witness :
    request_consensus [Voter.plain "n1"] 1 blockW0 (some (fun _ => (false, "bad"))) =
      (false, ConsensusDetails.preValidationFailed 0 1 0
        ("Pre-validation failed: " ++ "bad")) ∧
    request_consensus [Voter.custom "other" (fun _ => Vote.approve)] 1 blockW0
        (some (fun _ => (false, "bad"))) =
      request_consensus [Voter.plain "n1"] 1 blockW0 (some (fun _ => (false, "bad"))) := by
  have h := c3_prevalidation_short_circuit [Voter.plain "n1"] 1 blockW0
    (fun _ => (false, "bad")) rfl
  exact ⟨h.1, h.2 [Voter.custom "other" (fun _ => Vote.approve)] rfl⟩

/-! ## Claim C4 -/

/-- C4 counterexample: with quota `{CPU: 4}` and nothing allocated,
`can_allocate("CPU", 0)` returns true although the claim requires
`amount > 0`: at `a = 0` the claimed "true iff a > 0 and within quota"
equivalence fails. -/
theorem c4_counterexample :
    (Node.init "A" [("CPU", 4)]).can_allocate "CPU" 0 = true ∧ ¬ ((0 : ℚ) < 0) := by
  constructor
  · simp +decide [Node.init, setDefaultsZero, Node.can_allocate, hasKey, lookupD]
  · exact lt_irrefl 0

/-- C4 (amended): for a node and a known resource kind `r`, `can_allocate`
returns true iff `0 ≤ a` and `allocated[r] + a ≤ quotas[r]` (the code
accepts `a = 0`; only negative amounts are rejected); in particular it is
false whenever `allocated[r] + a > quotas[r]`; and
`ResourceManager.can_allocate` on a registered node delegates to that
node's check. -/
theorem c4_can_allocate_characterization (n : Node) (r : String) (a : ℚ)
    (hr : hasKey n.quotas r = true) :
    (n.can_allocate r a = true ↔
      0 ≤ a ∧ lookupD n.allocated r 0 + a ≤ lookupD n.quotas r 0) ∧
    (lookupD n.quotas r 0 < lookupD n.allocated r 0 + a →
      n.can_allocate r a = false) ∧
    (∀ (rm : ResourceManager) (nid : String) (node : Node),
      lookupOpt rm.nodes nid = some node →
      rm.can_allocate nid r a = Except.ok (node.can_allocate r a)) := by
  refine ⟨?_, ?_, ?_⟩
  · rw [can_allocate_eq_true]
    simp [hr]
  · intro hlt
    cases hca : n.can_allocate r a with
    | false => rfl
    | true =>
      exact absurd (can_allocate_eq_true.mp hca).2.2 (not_le.mpr hlt)
  · intro rm nid node hlook
    simp [ResourceManager.can_allocate, hlook]

/-- Witness for C4 (amended): a request exceeding the quota is refused, a
zero request within quota is accepted, and the manager delegates. -/
theorem c4_witness :
    (Node.init "A" [("CPU", 4)]).can_allocate "CPU" 5 = false ∧
    (Node.init "A" [("CPU", 4)]).can_allocate "CPU" 0 = true ∧
    (ResourceManager.mk 100 1000 [("A", Node.init "A" [("CPU", 4)])]).can_allocate
      "A" "CPU" 5 = Except.ok false := by
  have h5 := c4_can_allocate_characterization (Node.init "A" [("CPU", 4)]) "CPU" 5
    (by decide)
  have h0 := c4_can_allocate_characterization (Node.init "A" [("CPU", 4)]) "CPU" 0
    (by decide)
  have hfalse : (Node.init "A" [("CPU", 4)]).can_allocate "CPU" 5 = false := by
    refine h5.2.1 ?_
    simp +decide [Node.init, setDefaultsZero, hasKey, lookupD]
  refine ⟨hfalse, ?_, ?_⟩
  · refine h0.1.mpr ?_
    constructor
    · decide
    · simp +decide [Node.init, setDefaultsZero, hasKey, lookupD]
  · rw [h5.2.2 (ResourceManager.mk 100 1000 [("A", Node.init "A" [("CPU", 4)])])
      "A" (Node.init "A" [("CPU", 4)]) (by simp [lookupOpt]), hfalse]

/-! ## Claim C5 -/

/-- C5 (spec-modelled): when a node is optimistically registered so its
founding "add_node" block can be proposed, and consensus rejects that block,
the just-added node is removed before the ConsensusRejected error is
returned: the resulting ledger and chain equal the pre-registration state,
so no node exists in the ledger without a corresponding accepted block. -/
theorem c5_rollback_on_consensus_reject (st : LedgerState) (node_id : String)
    (quotas : List (String × ℚ)) (mkB : LedgerState → Block) (approves : Block → Bool)
    (hnew : hasKey st.nodes node_id = false)
    (hreject : approves (mkB { st with
      nodes := setKey st.nodes node_id (Node.init node_id quotas) }) = false) :
    (add_node_flow st node_id quotas mkB approves).1 =
      RegisterOutcome.consensusRejected "Consensus rejected the add_node block" ∧
    (add_node_flow st node_id quotas mkB approves).2.nodes = st.nodes ∧
    (add_node_flow st node_id quotas mkB approves).2.chain = st.chain := by
  simp only [add_node_flow, hnew, Bool.false_eq_true, if_false, hreject]
  exact ⟨trivial, delKey_setKey_absent _ _ _ hnew, trivial⟩

/-- Witness for C5: registering "A" on an empty ledger under a rejecting
consensus leaves the ledger and chain empty. -/
theorem c5_witness :
    (add_node_flow (LedgerState.mk [] []) "A" [("CPU", 4)] (fun _ => blockW0)
        (fun _ => false)).1 =
      RegisterOutcome.consensusRejected "Consensus rejected the add_node block" ∧
    (add_node_flow (LedgerState.mk [] []) "A" [("CPU", 4)] (fun _ => blockW0)
        (fun _ => false)).2.nodes = [] ∧
    (add_node_flow (LedgerState.mk [] []) "A" [("CPU", 4)] (fun _ => blockW0)
        (fun _ => false)).2.chain = [] :=
  c5_rollback_on_consensus_reject (LedgerState.mk [] []) "A" [("CPU", 4)]
    (fun _ => blockW0) (fun _ => false) rfl rfl

/-! ## Claim C6 -/

/-- C6: the invariant `0 ≤ allocated[r] ≤ quotas[r]` for every quota key
holds after fresh construction (under the §3 data-model constraint that
quotas are non-negative) and is preserved by every successful `allocate` and
by every successful `release`. -/
theorem c6_node_invariant :
    (∀ (node_id : String) (qs : List (String × ℚ)),
      (∀ r, hasKey qs r = true → 0 ≤ lookupD qs r 0) →
      NodeInv (Node.init node_id qs)) ∧
    (∀ (n : Node) (r : String) (a : ℚ) (n' : Node),
      NodeInv n → n.allocate r a = (none, n') → NodeInv n') ∧
    (∀ (n : Node) (r : String) (a : ℚ) (n' : Node),
      NodeInv n → n.release r a = (none, n') → NodeInv n') := by
  refine ⟨?_, ?_, ?_⟩
  · intro node_id qs hq r hr
    have hz : lookupD (Node.init node_id qs).allocated r 0 = 0 :=
      setDefaultsZero_lookup (qs.map Prod.fst) [] (fun _ => rfl) r
    rw [hz]
    exact ⟨le_refl 0, hq r hr⟩
  · intro n r a n' hinv hsucc
    obtain ⟨hca, hn'⟩ := allocate_eq_of_success hsucc
    obtain ⟨hrq, ha, hle⟩ := can_allocate_eq_true.mp hca
    have hquot : n'.quotas = n.quotas := by rw [hn']
    have halloc : n'.allocated = setKey n.allocated r (lookupD n.allocated r 0 + a) := by
      rw [hn']
    intro r' hr'
    rw [hquot] at hr'
    rw [halloc, hquot]
    by_cases hrr : r' = r
    · subst hrr
      rw [lookupD_setKey_self]
      exact ⟨add_nonneg (hinv r' hr').1 ha, hle⟩
    · rw [lookupD_setKey_ne _ _ _ _ _ hrr]
      exact hinv r' hr'
  · intro n r a n' hinv hsucc
    obtain ⟨hcr, hn'⟩ := release_eq_of_success hsucc
    obtain ⟨hra, ha, hge⟩ := can_release_eq_true.mp hcr
    have hquot : n'.quotas = n.quotas := by rw [hn']
    have halloc : n'.allocated =
        (if (lookupD n.allocated r 0 - a < clampEps) then
          setKey (setKey n.allocated r (lookupD n.allocated r 0 - a)) r 0
        else setKey n.allocated r (lookupD n.allocated r 0 - a)) := by
      rw [hn']
    intro r' hr'
    rw [hquot] at hr'
    rw [halloc, hquot]
    by_cases hrr : r' = r
    · subst hrr
      by_cases h4 : lookupD n.allocated r' 0 - a < clampEps
      · rw [if_pos h4, lookupD_setKey_self]
        exact ⟨le_refl 0, le_trans (hinv r' hr').1 (hinv r' hr').2⟩
      · rw [if_neg h4, lookupD_setKey_self]
        constructor
        · linarith
        · linarith [(hinv r' hr').2]
    · by_cases h4 : lookupD n.allocated r 0 - a < clampEps
      · rw [if_pos h4, lookupD_setKey_ne _ _ _ _ _ hrr, lookupD_setKey_ne _ _ _ _ _ hrr]
        exact hinv r' hr'
      · rw [if_neg h4, lookupD_setKey_ne _ _ _ _ _ hrr]
        exact hinv r' hr'

/-- Witness for C6: the invariant holds for a freshly constructed node, after
a successful allocation, and after a successful release. -/
theorem c6_witness :
    NodeInv (Node.init "A" [("CPU", 4)]) ∧
    NodeInv (Node.mk "A" [("CPU", 4)] [("CPU", 2)] "active") ∧
    NodeInv (Node.mk "A" [("CPU", 4)] [("CPU", 0)] "active") := by
  have hq : ∀ r, hasKey [("CPU", (4 : ℚ))] r = true → 0 ≤ lookupD [("CPU", (4 : ℚ))] r 0 := by
    intro r _
    by_cases h : "CPU" = r
    · simp only [lookupD, if_pos h]
      decide
    · simp only [lookupD, if_neg h]
      decide
  have h0 : NodeInv (Node.init "A" [("CPU", 4)]) := c6_node_invariant.1 "A" [("CPU", 4)] hq
  have h1 : NodeInv (Node.mk "A" [("CPU", 4)] [("CPU", 2)] "active") := by
    refine c6_node_invariant.2.1 (Node.init "A" [("CPU", 4)]) "CPU" 2 _ h0 ?_
    simp +decide [Node.init, setDefaultsZero, Node.allocate, Node.can_allocate, hasKey,
      lookupD, setKey]
  have h2 : NodeInv (Node.mk "A" [("CPU", 4)] [("CPU", 0)] "active") := by
    refine c6_node_invariant.2.2 (Node.mk "A" [("CPU", 4)] [("CPU", 2)] "active") "CPU" 2 _ h1 ?_
    simp +decide [Node.release, Node.can_release, hasKey, lookupD, setKey, clampEps]
  exact ⟨h0, h1, h2⟩

/-! ## Claim C7 -/

/-- C7: `save_state` followed by `load_state` on the same path returns
exactly the saved nodes, chain and audit events and reports
`integrity_ok = true`.  The hypothesis reflects that a SHA-256 hex digest is
never the empty string (Python's `if not stored_checksum` would treat an
empty checksum as missing). -/
theorem c7_save_load_roundtrip {α β γ : Type} (chk : List α → List β → List γ → String)
    (nodes : List α) (chain : List β) (audit_events : List γ)
    (hne : chk nodes chain audit_events ≠ "") :
    load_state chk (some (save_state chk nodes chain audit_events)) =
      { nodes := nodes, chain := chain, audit_events := audit_events,
        checksum := some (chk nodes chain audit_events),
        integrity_ok := true, integrity_msg := some "Integrity verified" } := by
  simp [load_state, save_state, verify_data_integrity, hne]

/-- Witness for C7 at a concrete snapshot and checksum function. -/
theorem c7_witness :
    load_state (fun (_ : List ℕ) (_ : List ℕ) (_ : List ℕ) => "cafe")
        (some (save_state (fun _ _ _ => "cafe") [1] [2] [3])) =
      LoadResult.mk [1] [2] [3] (some "cafe") true (some "Integrity verified") :=
  c7_save_load_roundtrip (fun _ _ _ => "cafe") [1] [2] [3] (by decide)

/-! ## Claim C8 -/

/-- C8: a snapshot whose checksum field is missing, or whose stored checksum
differs from the checksum recomputed over the loaded collections, loads with
`integrity_ok = false` and a reason different from the success message,
while the nodes, chain and audit events are still returned; and replacing
only the stored checksum of a saved snapshot makes the next load report
`integrity_ok = false`. -/
theorem c8_tamper_detection {α β γ : Type} (chk : List α → List β → List γ → String)
    (d : StateFile α β γ)
    (hbad : d.checksum = none ∨
      ∃ s, d.checksum = some s ∧ s ≠ chk d.nodes d.chain d.audit_events) :
    ((load_state chk (some d)).integrity_ok = false ∧
      (load_state chk (some d)).nodes = d.nodes ∧
      (load_state chk (some d)).chain = d.chain ∧
      (load_state chk (some d)).audit_events = d.audit_events ∧
      (load_state chk (some d)).integrity_msg ≠ some "Integrity verified") ∧
    (∀ (nodes : List α) (chain : List β) (audit_events : List γ) (s' : String),
      s' ≠ chk nodes chain audit_events →
      (load_state chk (some { save_state chk nodes chain audit_events with
        checksum := some s' })).integrity_ok = false) := by
  have hmsg : ∀ s t : String,
      ("Checksum mismatch - file has been tampered with! Stored: " ++ s.take 16
        ++ "... Computed: " ++ t.take 16 ++ "...") ≠ "Integrity verified" := by
    intro s t h
    have hl := congrArg String.length h
    simp only [String.length_append] at hl
    have e1 : ("Checksum mismatch - file has been tampered with! Stored: " : String).length
        = 57 := by decide
    have e2 : ("... Computed: " : String).length = 14 := by decide
    have e3 : ("..." : String).length = 3 := by decide
    have e4 : ("Integrity verified" : String).length = 18 := by decide
    omega
  constructor
  · rcases hbad with hnone | ⟨s, hs, hsne⟩
    · simp [load_state, verify_data_integrity, hnone]
    · by_cases hempty : s = ""
      · subst hempty
        simp [load_state, verify_data_integrity, hs]
      · refine ⟨?_, rfl, rfl, rfl, ?_⟩
        · simp [load_state, verify_data_integrity, hs, hempty, hsne]
        · simp only [load_state, verify_data_integrity, hs, if_neg hempty, if_pos hsne,
            ne_eq, Option.some.injEq]
          exact hmsg s (chk d.nodes d.chain d.audit_events)
  · intro nodes chain audit_events s' hs'
    by_cases hempty : s' = ""
    · subst hempty
      simp [load_state, verify_data_integrity, save_state]
    · simp [load_state, verify_data_integrity, save_state, hempty, hs']

/-- Witness for C8: a snapshot saved with checksum "cafe" and then edited to
"beef" loads with `integrity_ok = false`; a checksum-less snapshot loads
with `integrity_ok = false` but still returns its data. -/
theorem c8_witness :
    (load_state (fun (_ : List ℕ) (_ : List ℕ) (_ : List ℕ) => "cafe")
      (some { save_state (fun _ _ _ => "cafe") [1] [2] [3] with
        checksum := some "beef" })).integrity_ok = false ∧
    (load_state (fun (_ : List ℕ) (_ : List ℕ) (_ : List ℕ) => "cafe")
      (some (StateFile.mk [1] [2] [3] none))).integrity_ok = false ∧
    (load_state (fun (_ : List ℕ) (_ : List ℕ) (_ : List ℕ) => "cafe")
      (some (StateFile.mk [1] [2] [3] none))).nodes = [1] := by
  have h1 := (c8_tamper_detection (fun (_ : List ℕ) (_ : List ℕ) (_ : List ℕ) => "cafe")
    (StateFile.mk [1] [2] [3] none) (Or.inl rfl)).1
  have h2 := (c8_tamper_detection (fun (_ : List ℕ) (_ : List ℕ) (_ : List ℕ) => "cafe")
    (StateFile.mk [1] [2] [3] (some "beef"))
    (Or.inr ⟨"beef", rfl, by decide⟩)).2 [1] [2] [3] "beef" (by decide)
  exact ⟨h2, h1.1, h1.2.1⟩

/-! ## Claim C9 -/

theorem clampEps_le_tol : clampEps ≤ 1 / 1000000000 := by
  norm_num [clampEps]

/-- C9: a successful allocate of `a` followed by a successful release of the
same `a` leaves `allocated[r]` equal to its prior value, except that a prior
value below the 1e-12 clamp threshold is clamped to exactly 0 by the
release; in every case the result is within 1e-9 of the prior value. -/
theorem c9_allocate_release_roundtrip (n : Node) (r : String) (a : ℚ) (n1 n2 : Node)
    (h1 : n.allocate r a = (none, n1)) (h2 : n1.release r a = (none, n2)) :
    lookupD n2.allocated r 0 =
      (if (lookupD n.allocated r 0 < clampEps) then 0 else lookupD n.allocated r 0) ∧
    |lookupD n2.allocated r 0 - lookupD n.allocated r 0| ≤ 1 / 1000000000 := by
  obtain ⟨hca, hn1⟩ := allocate_eq_of_success h1
  obtain ⟨hrq, ha, hle⟩ := can_allocate_eq_true.mp hca
  obtain ⟨hcr, hn2⟩ := release_eq_of_success h2
  obtain ⟨hra, -, hge⟩ := can_release_eq_true.mp hcr
  have halloc1 : lookupD n1.allocated r 0 = lookupD n.allocated r 0 + a := by
    rw [hn1]
    exact lookupD_setKey_self _ _ _ _
  rw [halloc1] at hge
  have hold0 : 0 ≤ lookupD n.allocated r 0 := by linarith
  have halloc2 : n2.allocated =
      (if (lookupD n1.allocated r 0 - a < clampEps) then
        setKey (setKey n1.allocated r (lookupD n1.allocated r 0 - a)) r 0
      else setKey n1.allocated r (lookupD n1.allocated r 0 - a)) := by
    rw [hn2]
  have hsub : lookupD n1.allocated r 0 - a = lookupD n.allocated r 0 := by
    rw [halloc1]
    ring
  rw [hsub] at halloc2
  have hval : lookupD n2.allocated r 0 =
      (if (lookupD n.allocated r 0 < clampEps) then 0 else lookupD n.allocated r 0) := by
    rw [halloc2]
    by_cases h4 : lookupD n.allocated r 0 < clampEps
    · rw [if_pos h4, if_pos h4, lookupD_setKey_self]
    · rw [if_neg h4, if_neg h4, lookupD_setKey_self]
  refine ⟨hval, ?_⟩
  rw [hval]
  by_cases h4 : lookupD n.allocated r 0 < clampEps
  · rw [if_pos h4]
    have habs : |0 - lookupD n.allocated r 0| = lookupD n.allocated r 0 := by
      rw [zero_sub, abs_neg, abs_of_nonneg hold0]
    rw [habs]
    have := clampEps_le_tol
    linarith
  · rw [if_neg h4, sub_self, abs_zero]
    norm_num

/-- Witness for C9: allocating 2 CPU on a fresh node and releasing 2 CPU
restores the zero allocation exactly. -/
theorem c9_witness :
    lookupD (Node.mk "A" [("CPU", 4)] [("CPU", 0)] "active").allocated "CPU" 0 =
      (if (lookupD (Node.init "A" [("CPU", 4)]).allocated "CPU" 0 < clampEps) then 0
        else lookupD (Node.init "A" [("CPU", 4)]).allocated "CPU" 0) ∧
    |lookupD (Node.mk "A" [("CPU", 4)] [("CPU", 0)] "active").allocated "CPU" 0 -
      lookupD (Node.init "A" [("CPU", 4)]).allocated "CPU" 0| ≤ 1 / 1000000000 := by
  refine c9_allocate_release_roundtrip (Node.init "A" [("CPU", 4)]) "CPU" 2
    (Node.mk "A" [("CPU", 4)] [("CPU", 2)] "active")
    (Node.mk "A" [("CPU", 4)] [("CPU", 0)] "active") ?_ ?_
  · simp +decide [Node.init, setDefaultsZero, Node.allocate, Node.can_allocate, hasKey,
      lookupD, setKey]
  · simp +decide [Node.release, Node.can_release, hasKey, lookupD, setKey, clampEps]

/-! ## Claim C10 -/

/-- C10: `allocate` and `release` raise exactly when the corresponding
capability check fails (unknown resource, negative amount, or precondition
violated), and every failing call leaves the node completely unchanged. -/
theorem c10_failure_atomicity :
    (∀ (n : Node) (r : String) (a : ℚ),
      ((n.allocate r a).1 ≠ none ↔ n.can_allocate r a = false) ∧
      ((n.allocate r a).1 ≠ none → (n.allocate r a).2 = n)) ∧
    (∀ (n : Node) (r : String) (a : ℚ),
      ((n.release r a).1 ≠ none ↔ n.can_release r a = false) ∧
      ((n.release r a).1 ≠ none → (n.release r a).2 = n)) := by
  constructor
  · intro n r a
    by_cases h1 : hasKey n.quotas r = false
    · constructor
      · simp [Node.allocate, h1, Node.can_allocate]
      · intro _
        simp [Node.allocate, h1]
    · by_cases h2 : a < 0
      · constructor
        · simp [Node.allocate, h1, h2, Node.can_allocate]
        · intro _
          simp [Node.allocate, h1, h2]
      · by_cases h3 : n.can_allocate r a = false
        · constructor
          · simp [Node.allocate, h1, h2, h3]
          · intro _
            simp [Node.allocate, h1, h2, h3]
        · constructor
          · simp [Node.allocate, h1, h2, h3]
          · intro hcon
            exfalso
            apply hcon
            simp [Node.allocate, h1, h2, h3]
  · intro n r a
    by_cases h1 : hasKey n.allocated r = false
    · constructor
      · simp [Node.release, h1, Node.can_release]
      · intro _
        simp [Node.release, h1]
    · by_cases h2 : a < 0
      · constructor
        · simp [Node.release, h1, h2, Node.can_release]
        · intro _
          simp [Node.release, h1, h2]
      · by_cases h3 : n.can_release r a = false
        · constructor
          · simp [Node.release, h1, h2, h3]
          · intro _
            simp [Node.release, h1, h2, h3]
        · constructor
          · by_cases h4 : lookupD n.allocated r 0 - a < clampEps
            · simp [Node.release, h1, h2, h3, h4]
            · simp [Node.release, h1, h2, h3, h4]
          · intro hcon
            exfalso
            apply hcon
            by_cases h4 : lookupD n.allocated r 0 - a < clampEps
            · simp [Node.release, h1, h2, h3, h4]
            · simp [Node.release, h1, h2, h3, h4]

/-- Witness for C10: failed calls (unknown resource; over-release) leave the
node unchanged. -/
theorem c10_witness :
    ((Node.init "A" [("CPU", 4)]).allocate "GPU" 1).2 = Node.init "A" [("CPU", 4)] ∧
    ((Node.init "A" [("CPU", 4)]).release "CPU" 9).2 = Node.init "A" [("CPU", 4)] := by
  constructor
  · refine (c10_failure_atomicity.1 (Node.init "A" [("CPU", 4)]) "GPU" 1).2 ?_
    simp +decide [Node.init, setDefaultsZero, Node.allocate, Node.can_allocate, hasKey,
      lookupD]
  · refine (c10_failure_atomicity.2 (Node.init "A" [("CPU", 4)]) "CPU" 9).2 ?_
    simp +decide [Node.init, setDefaultsZero, Node.release, Node.can_release, hasKey,
      lookupD]

end BOS
